import Mathlib

/-!
Shallow embedding of the brig versioned object store (`store` package) and the
chunked streaming compression writer (`compress` package), together with
theorems settling the specification claims about them.

Conventions of the embedding:
* KV bucket contents are association lists; `putAssoc` overwrites an existing
  key in place (bolt `Put` semantics), `lookupAssoc` is bolt `Get`.
* Byte strings are `List Nat` with each element `< 256` where it matters;
  `uint64` values are `Nat` with explicit `% 2^64` at the single point where
  the source performs 64-bit arithmetic (the increment in `NextID`).
* Serialized wire forms (protobuf) are modelled by the structured values
  themselves: serialization is injective on the wire fields, so a bucket that
  stores `proto.Marshal(node)` is modelled as a bucket storing the wire
  fields of the node (`NodeCore`, `Checkpoint`).
* Checkpoint bucket keys are `strconv.FormatUint(x, 16)` strings; hex
  formatting is a bijection between `uint64` and its hex string, so keys are
  modelled as the `Nat` itself.
-/

set_option autoImplicit false

deriving instance DecidableEq for Except

namespace Brig

/-- Association-list `Put`: overwrite the entry with the given key if present,
otherwise append a fresh entry. -/
def putAssoc {κ α : Type} [DecidableEq κ] : List (κ × α) → κ → α → List (κ × α)
  | [], k, v => [(k, v)]
  | (k', v') :: t, k, v =>
      if k' = k then (k, v) :: t else (k', v') :: putAssoc t k v

/-- Association-list `Get`: the value stored under a key, or `none`. -/
def lookupAssoc {κ α : Type} [DecidableEq κ] : List (κ × α) → κ → Option α
  | [], _ => none
  | (k', v') :: t, k => if k' = k then some v' else lookupAssoc t k

theorem lookupAssoc_putAssoc {κ α : Type} [DecidableEq κ]
    (l : List (κ × α)) (k k' : κ) (v : α) :
    lookupAssoc (putAssoc l k v) k' =
      if k = k' then some v else lookupAssoc l k' := by
  induction l with
  | nil => simp [putAssoc, lookupAssoc]
  | cons hd t ih =>
      obtain ⟨k0, v0⟩ := hd
      by_cases h0 : k0 = k
      · subst h0
        by_cases h1 : k0 = k'
        · subst h1
          simp [putAssoc, lookupAssoc]
        · simp [putAssoc, lookupAssoc, h1]
      · by_cases h1 : k0 = k'
        · subst h1
          have hk : ¬k = k0 := fun h => h0 h.symm
          simp [putAssoc, lookupAssoc, h0, hk]
        · simp [putAssoc, lookupAssoc, h0, h1, ih]

/-- Big-endian encoding of a `uint64` into 8 bytes
(`binary.BigEndian.PutUint64`). -/
def be64encode (n : Nat) : List Nat :=
  [n / 2 ^ 56 % 256, n / 2 ^ 48 % 256, n / 2 ^ 40 % 256, n / 2 ^ 32 % 256,
   n / 2 ^ 24 % 256, n / 2 ^ 16 % 256, n / 2 ^ 8 % 256, n % 256]

/-- Big-endian decoding of bytes into a `Nat`
(`binary.BigEndian.Uint64` on an 8-byte buffer). -/
def be64decode (bs : List Nat) : Nat :=
  bs.foldl (fun a b => a * 256 + b) 0

theorem be64decode_be64encode (n : Nat) (h : n < 2 ^ 64) :
    be64decode (be64encode n) = n := by
  simp only [be64encode, be64decode, List.foldl]
  omega

theorem be64decode_be64encode_witness :
    5 < 2 ^ 64 ∧ be64decode (be64encode 5) = 5 :=
  ⟨by decide, be64decode_be64encode 5 (by decide)⟩

/-! The store data model. -/

/-- Node kinds (`wire.NodeType`). -/
inductive NodeType : Type where
  | file
  | directory
  | commit
deriving DecidableEq, Repr

/-- The wire fields of a node.  `hash` is the base58 content hash (used as
objects-bucket key), `path` the canonical path of the node, `root` the root-tree
hash (meaningful for commits), `payload` abstracts the remaining wire fields
(name, size, author, ...). -/
structure NodeCore : Type where
  ty : NodeType
  id : Nat
  hash : String
  path : String
  root : String
  payload : Nat
deriving DecidableEq, Repr

/-- A checkpoint record (`idLink`, `index`; `payload` abstracts hash, change
kind and author). -/
structure Checkpoint : Type where
  idLink : Nat
  index : Nat
  payload : Nat
deriving DecidableEq, Repr

/-- A commit changeset entry. -/
structure CheckpointLink : Type where
  idLink : Nat
  index : Nat
deriving DecidableEq, Repr

/-- A checkpoints namespace: bolt buckets hold plain keys and nested buckets
side by side, so the namespace carries both the entries put directly into it
(`direct`) and the per-id nested buckets (`subs`). -/
structure CkpNS : Type where
  direct : List (Nat × Checkpoint)
  subs : List (Nat × List (Nat × Checkpoint))
deriving DecidableEq, Repr

/-- Entries of the nested bucket for one id inside a checkpoints namespace
(empty when the bucket does not exist — creating a bucket is idempotent). -/
def subEntriesNS (ns : CkpNS) (idLink : Nat) : List (Nat × Checkpoint) :=
  (lookupAssoc ns.subs idLink).getD []

/-- The persistent state of the filesystem: the KV buckets of the storage
layout, plus the in-memory b58-hash index cache (`FS.index`; the path trie is
a cache of the same data and is not modelled separately). -/
structure Store : Type where
  objects : List (String × NodeCore)
  stageObjects : List (String × NodeCore)
  tree : List (String × String)
  stageTree : List (String × String)
  checkpoints : CkpNS
  stageCheckpoints : CkpNS
  stats : List (String × List Nat)
  refs : List (String × String)
  index : List (String × NodeCore)
deriving DecidableEq, Repr

/-- Errors surfaced by the store operations. -/
inductive GoErr : Type where
  | commitBySubmit
  | noChange
  | noLastCheckpoint
  | badNode
  | badMultihash
  | noHashFound (b58 : String)
deriving DecidableEq, Repr

/-- NextID: read `stats/node-count`, increment (64-bit wrap-around), store it
back big-endian, return the new value.  `putOk` says whether the underlying
KV `Put` succeeds; on a failing `Put` the source executes `return 0, nil`,
dropping both the error and the updated counter. -/
def nextID (kv : Store) (putOk : Bool) : (Nat × Option GoErr) × Store :=
  let cnt :=
    match lookupAssoc kv.stats "node-count" with
    | none => 1
    | some bs => (be64decode bs + 1) % 2 ^ 64
  let cntBuf := be64encode cnt
  if putOk then
    ((cnt, none), { kv with stats := putAssoc kv.stats "node-count" cntBuf })
  else
    ((0, none), kv)

/-- LoadNode: probe `objects` then `stage/objects` for the b58 hash key; fail
with `ErrNoHashFound` when both miss. -/
def loadNode (kv : Store) (b58 : String) : Except GoErr NodeCore :=
  match lookupAssoc kv.objects b58 with
  | some d => Except.ok d
  | none =>
      match lookupAssoc kv.stageObjects b58 with
      | some d => Except.ok d
      | none => Except.error (GoErr.noHashFound b58)

/-- ASCII lowercasing of one character (`strings.ToLower` on refnames). -/
def lowerChar (c : Char) : Char :=
  if 65 ≤ c.toNat ∧ c.toNat ≤ 90 then Char.ofNat (c.toNat + 32) else c

/-- ASCII lowercasing of a refname (`strings.ToLower`). -/
def toLowerStr (s : String) : String :=
  String.mk (s.data.map lowerChar)

/-- ResolveRef: lowercase the refname, read the hash bytes from `refs`
(`multihash.Cast` of a missing entry fails), then load the node.  The
`NodeByHash` index-cache probe is transparent (the cache only mirrors KV
content) and is not modelled. -/
def resolveRefNode (kv : Store) (refname : String) : Except GoErr NodeCore :=
  match lookupAssoc kv.refs (toLowerStr refname) with
  | none => Except.error GoErr.badMultihash
  | some h => loadNode kv h

/-- Head: resolve the `HEAD` ref and require a commit. -/
def headC (kv : Store) : Except GoErr NodeCore :=
  match resolveRefNode kv "HEAD" with
  | Except.error e => Except.error e
  | Except.ok nd =>
      if nd.ty = NodeType.commit then Except.ok nd else Except.error GoErr.badNode

/-- AppendDot: directory tree keys carry a trailing dot component
(`strings.HasSuffix(path, "/")` is a check on the last character). -/
def appendDot (p : String) : String :=
  if p.data.getLast? = some '/' then p ++ "." else p ++ "/."

/-- An in-memory node together with its (already re-resolved) parent chain.

Modelled from the spec: `Node.Parent()` and the per-parent hash recomputation
are not part of the given source; per the spec, staging re-resolves the parent
with its child list (and therefore its hash) already updated, terminating at
the root.  The chain of recomputed parents is embedded in the node value. -/
inductive SNode : Type where
  | base (core : NodeCore)
  | step (core : NodeCore) (parent : SNode)
deriving DecidableEq, Repr

/-- The own wire fields of a node. -/
def SNode.core : SNode → NodeCore
  | SNode.base c => c
  | SNode.step c _ => c

/-- The chain of nodes from a node up to the root (the node itself first). -/
def chain : SNode → List SNode
  | SNode.base c => [SNode.base c]
  | SNode.step c p => SNode.step c p :: chain p

/-- One staging step of `StageNode` for a single node: put the serialized node
at `stage/objects/<b58 hash>`, put the path-to-hash mapping at
`stage/tree/<path>` (directories get the trailing dot), and remember the node
in the index cache.  (`putPath` is modelled from the storage layout of the spec:
`stage/tree/<canonical-path> -> H`.) -/
def stagePut (kv : Store) (c : NodeCore) : Store :=
  let kv1 := { kv with stageObjects := putAssoc kv.stageObjects c.hash c }
  let treeKey := if c.ty = NodeType.directory then appendDot c.path else c.path
  { kv1 with
      stageTree := putAssoc kv1.stageTree treeKey c.hash
      index := putAssoc kv1.index c.hash c }

/-- StageNode: reject commits, stage the node, then recursively stage the
parent until the root. -/
def stageNode (kv : Store) : SNode → Except GoErr Store
  | SNode.base c =>
      if c.ty = NodeType.commit then Except.error GoErr.commitBySubmit
      else Except.ok (stagePut kv c)
  | SNode.step c p =>
      if c.ty = NodeType.commit then Except.error GoErr.commitBySubmit
      else stageNode (stagePut kv c) p

/-! Checkpoint handling. -/

/-- The zero-valued checkpoint (`newEmptyCheckpoint` before unmarshalling). -/
def emptyCheckpoint : Checkpoint := { idLink := 0, index := 0, payload := 0 }

/-- Bolt `Bucket.Last`: the entry with the highest key, or `none` on an empty
bucket. -/
def bucketLast : List (Nat × Checkpoint) → Option (Nat × Checkpoint)
  | [] => none
  | (k, v) :: t =>
      match bucketLast t with
      | none => some (k, v)
      | some (k', v') => if k' < k then some (k, v) else some (k', v')

/-- Checkpoint unmarshalling of an optional `Last` result: `proto.Unmarshal`
of a nil byte slice succeeds and yields the zero-valued message. -/
def unmarshalCkp : Option (Nat × Checkpoint) → Except GoErr Checkpoint
  | none => Except.ok emptyCheckpoint
  | some (_, c) => Except.ok c

/-- The loop body of `LastCheckpoint`: the source iterates over the two bucket
paths, but the body returns unconditionally on its first iteration, so the
second path and the final `No last checkpoint` return are dead code.  The
recursion below mirrors that literally. -/
def lastCheckpointLoop : List (List (Nat × Checkpoint)) → Except GoErr Checkpoint
  | [] => Except.error GoErr.noLastCheckpoint
  | b :: _ => unmarshalCkp (bucketLast b)

/-- LastCheckpoint: probe `checkpoints/<hex>` then `stage/checkpoints/<hex>`
(as per the bucket-path list in the source; see `lastCheckpointLoop`). -/
def lastCheckpoint (kv : Store) (idLink : Nat) : Except GoErr Checkpoint :=
  lastCheckpointLoop
    [subEntriesNS kv.checkpoints idLink, subEntriesNS kv.stageCheckpoints idLink]

/-- Insertion into a list sorted by ascending checkpoint index. -/
def insertCkp (c : Checkpoint) : List Checkpoint → List Checkpoint
  | [] => [c]
  | d :: t => if c.index ≤ d.index then c :: d :: t else d :: insertCkp c t

/-- Sorting by ascending checkpoint index (`sort.Sort` on `History`). -/
def sortCkps : List Checkpoint → List Checkpoint
  | [] => []
  | c :: t => insertCkp c (sortCkps t)

/-- History: iterate both per-id checkpoint buckets, append every entry, then
sort by index ascending.  Never fails: missing buckets iterate nothing. -/
def historyF (kv : Store) (idLink : Nat) : Except GoErr (List Checkpoint) :=
  Except.ok (sortCkps
    ((subEntriesNS kv.checkpoints idLink).map Prod.snd ++
     (subEntriesNS kv.stageCheckpoints idLink).map Prod.snd))

/-- StageCheckpoint: serialize and `Put` into the `stage/checkpoints` bucket —
under the key `hex(idLink)` alone; the checkpoint index is not part of the
key, so the entry lands directly in the namespace bucket, not in the per-id
nested bucket. -/
def stageCheckpoint (kv : Store) (ckp : Checkpoint) : Store :=
  { kv with
      stageCheckpoints :=
        { kv.stageCheckpoints with
            direct := putAssoc kv.stageCheckpoints.direct ckp.idLink ckp } }

/-! Commit handling. -/

/-- An in-memory commit: wire fields plus the mutable changeset. -/
structure GoCommit : Type where
  core : NodeCore
  changeset : List CheckpointLink
deriving DecidableEq, Repr

/-- The keys a `Foreach` over a checkpoints namespace bucket yields: the
directly stored keys and the nested bucket names. -/
def ckpNSKeys (ns : CkpNS) : List Nat :=
  ns.direct.map Prod.fst ++ ns.subs.map Prod.fst

/-- The changeset links `SubmitCommit` collects: for every key of the
`stage/checkpoints` bucket, every index key of the per-id nested bucket. -/
def stageLinks (ns : CkpNS) : List CheckpointLink :=
  (ckpNSKeys ns).flatMap fun k =>
    (subEntriesNS ns k).map fun e => { idLink := k, index := e.fst }

/-- SubmitCommit: load HEAD, fail with `ErrNoChange` on an unchanged root,
collect the staged checkpoint links into the changeset of the commit, then save the
`HEAD` ref.  The copy of `stage/objects`, `stage/tree`, `stage/checkpoints`
to the live namespaces, and the clearing of the stage, are commented out in
the source (`TODO: This needs a proper transaction mechanism`), so no bucket
other than `refs` is written. -/
def submitCommit (kv : Store) (cm : GoCommit) : Except GoErr (Store × GoCommit) :=
  match headC kv with
  | Except.error e => Except.error e
  | Except.ok head =>
      if cm.core.root = head.root then Except.error GoErr.noChange
      else
        let cm' : GoCommit :=
          { cm with changeset := cm.changeset ++ stageLinks kv.stageCheckpoints }
        let kv' :=
          { kv with refs := putAssoc kv.refs (toLowerStr "HEAD") cm'.core.hash }
        Except.ok (kv', cm')

/-! The chunked streaming compression writer. -/

/-- Modelled from the spec: the compile-time chunk size constant (64 KiB). -/
def maxChunkSize : Nat := 64 * 1024

/-- Modelled from the spec: the header occupies 8 bytes. -/
def headerSize : Nat := 8

/-- Modelled from the spec: each index record occupies 16 bytes. -/
def indexChunkSize : Nat := 16

/-- Modelled from the spec: the trailer occupies 14 bytes (u16 + u32 + u64). -/
def trailerSize : Nat := 14

/-- Big-endian encoding of a `uint16` into 2 bytes. -/
def be16encode (n : Nat) : List Nat :=
  [n / 2 ^ 8 % 256, n % 256]

/-- Big-endian encoding of a `uint32` into 4 bytes. -/
def be32encode (n : Nat) : List Nat :=
  [n / 2 ^ 24 % 256, n / 2 ^ 16 % 256, n / 2 ^ 8 % 256, n % 256]

/-- Modelled from the spec: the 8-byte stream header `magic | algo-type |
version` (the concrete magic byte values live outside the given source; six
fixed placeholder bytes stand for them). -/
def makeHeader (algoType : Nat) : List Nat :=
  [109, 97, 103, 105, 99, 33, algoType % 256, 1]

/-- An index record: offsets of a chunk start in the uncompressed and the
compressed stream. -/
structure Record : Type where
  rawOff : Nat
  zipOff : Nat
deriving DecidableEq, Repr

/-- Modelled from the spec: a record marshals to `u64 rawOff ++ u64 zipOff`,
big-endian. -/
def marshalRecord (r : Record) : List Nat :=
  be64encode r.rawOff ++ be64encode r.zipOff

/-- The trailer fields.  `NewWriter` zero-initializes the trailer and `Close`
sets only `indexSize`, so `algoType` and `chunkSize` stay at their zero
values in the given source. -/
structure Trailer : Type where
  algoType : Nat
  chunkSize : Nat
  indexSize : Nat
deriving DecidableEq, Repr

/-- Modelled from the spec: the trailer marshals to
`u16 algoType ++ u32 chunkSize ++ u64 indexSize`, big-endian. -/
def marshalTrailer (t : Trailer) : List Nat :=
  be16encode t.algoType ++ be32encode t.chunkSize ++ be64encode t.indexSize

/-- The compression writer state.  `out` accumulates every byte written to the
underlying stream; the compression algorithm is passed to each operation as a
pure function `enc`. -/
structure CWriter : Type where
  out : List Nat
  chunkBuf : List Nat
  index : List Record
  rawOff : Nat
  zipOff : Nat
  trailer : Trailer
  headerWritten : Bool
  algoType : Nat
deriving DecidableEq, Repr

/-- NewWriter: empty buffers, zeroed offsets and trailer, header pending. -/
def newWriter (algoType : Nat) : CWriter :=
  { out := [], chunkBuf := [], index := [], rawOff := 0, zipOff := 0,
    trailer := { algoType := 0, chunkSize := 0, indexSize := 0 },
    headerWritten := false, algoType := algoType }

/-- The `addRecordToIndex` helper: append a record at the current offsets. -/
def addRecordToIndex (w : CWriter) : CWriter :=
  { w with index := w.index ++ [{ rawOff := w.rawOff, zipOff := w.zipOff }] }

/-- The `flushBuffer` helper: on nonempty data, append a record at the current
offsets, write the encoded chunk, and advance the offsets by the raw and
encoded lengths. -/
def flushBuffer (enc : List Nat → List Nat) (w : CWriter) (data : List Nat) :
    CWriter :=
  if data.length ≤ 0 then w
  else
    let w1 := addRecordToIndex w
    let encData := enc data
    { w1 with
        out := w1.out ++ encData
        rawOff := w1.rawOff + data.length
        zipOff := w1.zipOff + encData.length }

theorem flushBuffer_chunkBuf (enc : List Nat → List Nat) (w : CWriter)
    (data : List Nat) : (flushBuffer enc w data).chunkBuf = w.chunkBuf := by
  unfold flushBuffer addRecordToIndex
  split <;> rfl

/-- The `writeHeaderIfNeeded` helper: write the header once and advance
`zipOff` by its size. -/
def writeHeaderIfNeeded (w : CWriter) : CWriter :=
  if w.headerWritten then w
  else
    { w with
        out := w.out ++ makeHeader w.algoType
        headerWritten := true
        zipOff := w.zipOff + headerSize }

/-- The loop of `Write`: append up to `maxChunkSize` bytes of `p` to the chunk
buffer; while the buffer holds at least `maxChunkSize` bytes, flush its first
`maxChunkSize` bytes and continue with the unconsumed rest of `p`. -/
def writeLoop (enc : List Nat → List Nat) (w : CWriter) (p : List Nat) :
    CWriter :=
  let n := min p.length maxChunkSize
  let w1 := { w with chunkBuf := w.chunkBuf ++ p.take n }
  if h : w1.chunkBuf.length < maxChunkSize then w1
  else
    writeLoop enc
      (flushBuffer enc { w1 with chunkBuf := w1.chunkBuf.drop maxChunkSize }
        (w1.chunkBuf.take maxChunkSize))
      (p.drop n)
termination_by p.length + w.chunkBuf.length
decreasing_by
  simp only [flushBuffer_chunkBuf, List.length_drop, List.length_append,
    List.length_take] at h ⊢
  simp only [maxChunkSize] at *
  omega

/-- Write: emit the header if pending, then run the chunking loop. -/
def writeBytes (enc : List Nat → List Nat) (w : CWriter) (p : List Nat) :
    CWriter :=
  writeLoop enc (writeHeaderIfNeeded w) p

/-- The loop of `ReadFrom`: each element of `reads` is the byte slice one
`r.Read(buf[:])` call delivers (at most `maxChunkSize` bytes, the size of the
read buffer); the final read reports `EOF`.  Every slice is flushed directly
as its own chunk — the chunk buffer is not involved. -/
def readLoop (enc : List Nat → List Nat) (w : CWriter) :
    List (List Nat) → CWriter
  | [] => flushBuffer enc w []
  | r :: rs => readLoop enc (flushBuffer enc w r) rs

/-- ReadFrom: emit the header if pending, then flush each read. -/
def readFromReads (enc : List Nat → List Nat) (w : CWriter)
    (reads : List (List Nat)) : CWriter :=
  readLoop enc (writeHeaderIfNeeded w) reads

/-- The tail of `Close` after the final chunk flush: append the sentinel
index record at the post-last-chunk offsets, set the index size in the
trailer,
then write the marshalled index and the trailer. -/
def closeTail (w : CWriter) : CWriter :=
  let w3 := addRecordToIndex w
  let w4 :=
    { w3 with
        trailer := { w3.trailer with indexSize := indexChunkSize * w3.index.length } }
  let indexBytes := (w4.index.map marshalRecord).flatten
  { w4 with out := w4.out ++ indexBytes ++ marshalTrailer w4.trailer }

/-- Close: emit the header if pending, flush the residual buffered bytes as a
final short chunk, then run the closing tail (sentinel record, index,
trailer). -/
def closeW (enc : List Nat → List Nat) (w : CWriter) : CWriter :=
  let w1 := writeHeaderIfNeeded w
  closeTail (flushBuffer enc w1 w1.chunkBuf)

/-- The reader delivery that hands a byte sequence over in maximal
(`maxChunkSize`-sized) reads, the final read possibly short. -/
def chunksOf (bs : List Nat) : List (List Nat) :=
  if h : bs = [] then []
  else bs.take maxChunkSize :: chunksOf (bs.drop maxChunkSize)
termination_by bs.length
decreasing_by
  simp only [List.length_drop]
  have : 0 < bs.length := List.length_pos.mpr h
  simp only [maxChunkSize]
  omega

/-! Sorting lemmas for `History`. -/

theorem insertCkp_perm (c : Checkpoint) (l : List Checkpoint) :
    (insertCkp c l).Perm (c :: l) := by
  induction l with
  | nil => simp [insertCkp]
  | cons d t ih =>
      by_cases h : c.index ≤ d.index
      · simp [insertCkp, h]
      · simp only [insertCkp, if_neg h]
        exact (List.Perm.cons d ih).trans (List.Perm.swap c d t)

theorem sortCkps_perm (l : List Checkpoint) : (sortCkps l).Perm l := by
  induction l with
  | nil => simp [sortCkps]
  | cons c t ih =>
      exact (insertCkp_perm c (sortCkps t)).trans (List.Perm.cons c ih)

theorem insertCkp_sorted (c : Checkpoint) (l : List Checkpoint)
    (h : l.Pairwise (fun a b => a.index ≤ b.index)) :
    (insertCkp c l).Pairwise (fun a b => a.index ≤ b.index) := by
  induction l with
  | nil => simp [insertCkp]
  | cons d t ih =>
      rw [List.pairwise_cons] at h
      obtain ⟨hd, ht⟩ := h
      by_cases hc : c.index ≤ d.index
      · rw [insertCkp, if_pos hc, List.pairwise_cons]
        refine ⟨?_, List.pairwise_cons.mpr ⟨hd, ht⟩⟩
        intro x hx
        rcases List.mem_cons.mp hx with rfl | hx
        · exact hc
        · exact hc.trans (hd x hx)
      · rw [insertCkp, if_neg hc, List.pairwise_cons]
        refine ⟨?_, ih ht⟩
        intro x hx
        have hx' : x ∈ c :: t := (insertCkp_perm c t).mem_iff.mp hx
        rcases List.mem_cons.mp hx' with rfl | hx'
        · omega
        · exact hd x hx'

theorem sortCkps_sorted (l : List Checkpoint) :
    (sortCkps l).Pairwise (fun a b => a.index ≤ b.index) := by
  induction l with
  | nil => simp [sortCkps]
  | cons c t ih => exact insertCkp_sorted c (sortCkps t) ih

/-- C6: `history(idLink)` succeeds on every store (in particular it returns
an empty sequence, not an error, for an unknown id), and its result is the
merge of the entries under `checkpoints/<hex(idLink)>` and
`stage/checkpoints/<hex(idLink)>`, sorted ascending by the `index` field. -/
theorem history_merges_and_sorts (kv : Store) (idLink : Nat) :
    ∃ l, historyF kv idLink = Except.ok l ∧
      l.Pairwise (fun a b => a.index ≤ b.index) ∧
      l.Perm ((subEntriesNS kv.checkpoints idLink).map Prod.snd ++
              (subEntriesNS kv.stageCheckpoints idLink).map Prod.snd) :=
  ⟨_, rfl, sortCkps_sorted _, sortCkps_perm _⟩

/-- C10: when the KV `Put` of the updated counter fails inside `NextID`, the
call returns id 0 together with a nil error and leaves the store unchanged —
the `Put` error is not propagated. -/
theorem nextID_put_failure_returns_zero_nil (kv : Store) :
    nextID kv false = ((0, none), kv) := rfl

/-- The empty store. -/
def emptyStore : Store :=
  { objects := [], stageObjects := [], tree := [], stageTree := [],
    checkpoints := { direct := [], subs := [] },
    stageCheckpoints := { direct := [], subs := [] },
    stats := [], refs := [], index := [] }

/-- A store whose persisted node counter is 5. -/
def kvC3 : Store := { emptyStore with stats := [("node-count", be64encode 5)] }

/-- C3: `nextId` is not strictly monotone on the code as written: starting
from a persisted counter of 5, a successful call returns 6, but a subsequent
call whose counter `Put` fails returns 0 with a nil error (`return 0, nil` in
the source) — a successfully-returned id that is smaller than the earlier
one.  The persisted counter is left unchanged by the failing call. -/
theorem nextID_monotonicity_broken_by_put_failure :
    (nextID kvC3 true).1 = (6, none) ∧
    (nextID (nextID kvC3 true).2 false).1 = (0, none) ∧
    (nextID (nextID kvC3 true).2 false).2 = (nextID kvC3 true).2 ∧
    (0 : Nat) < 6 := by decide

/-- First checkpoint staged for id 7. -/
def ckpC4a : Checkpoint := { idLink := 7, index := 1, payload := 10 }

/-- Second checkpoint staged for id 7, with a distinct index. -/
def ckpC4b : Checkpoint := { idLink := 7, index := 2, payload := 20 }

/-- C4: `stageCheckpoint` keys the entry by `hex(idLink)` alone — the index is
not part of the key — so staging two checkpoints with the same `idLink` but
distinct indices leaves only the second: it overwrites the first in the flat
`stage/checkpoints` bucket, and the per-id nested bucket stays empty. -/
theorem stageCheckpoint_same_id_overwrites :
    (stageCheckpoint (stageCheckpoint emptyStore ckpC4a) ckpC4b).stageCheckpoints =
      { direct := [(7, ckpC4b)], subs := [] } ∧
    subEntriesNS
      (stageCheckpoint (stageCheckpoint emptyStore ckpC4a) ckpC4b).stageCheckpoints
      7 = [] := by
  decide

/-- The single checkpoint staged for id 7 in the C5 scenario. -/
def ckpC5 : Checkpoint := { idLink := 7, index := 3, payload := 30 }

/-- A store with no live checkpoints for id 7 but one staged checkpoint. -/
def kvC5 : Store :=
  { emptyStore with
      stageCheckpoints := { direct := [], subs := [(7, [(3, ckpC5)])] } }

/-- C5: with `checkpoints/<hex(7)>` empty and `stage/checkpoints/<hex(7)>`
holding an entry, `lastCheckpoint 7` does not fall back to the stage
namespace and does not fail with `NoLastCheckpoint`: the loop body returns on
its first iteration, unmarshalling the nil `Last()` of the empty live bucket
into the zero-valued checkpoint. -/
theorem lastCheckpoint_never_probes_stage :
    lastCheckpoint kvC5 7 = Except.ok emptyCheckpoint ∧
    subEntriesNS kvC5.stageCheckpoints 7 = [(3, ckpC5)] ∧
    emptyCheckpoint ≠ ckpC5 ∧
    lastCheckpoint kvC5 7 ≠ Except.error GoErr.noLastCheckpoint ∧
    lastCheckpoint kvC5 7 ≠ Except.ok ckpC5 := by
  decide

/-! SubmitCommit: promotion (C1) and frame (C9). -/

/-- The commit `HEAD` points at in the C1 scenario. -/
def headCoreC1 : NodeCore :=
  { ty := NodeType.commit, id := 1, hash := "h0", path := "/", root := "r0",
    payload := 0 }

/-- The staged file node in the C1 scenario. -/
def stagedCoreC1 : NodeCore :=
  { ty := NodeType.file, id := 2, hash := "h1", path := "/x.txt", root := "",
    payload := 0 }

/-- A store with a resolvable HEAD commit and one staged object. -/
def kvC1 : Store :=
  { emptyStore with
      objects := [("h0", headCoreC1)],
      stageObjects := [("h1", stagedCoreC1)],
      stageTree := [("/x.txt", "h1")],
      refs := [("head", "h0")] }

/-- The commit submitted in the C1 scenario (root differs from HEAD). -/
def cmC1 : GoCommit :=
  { core := { ty := NodeType.commit, id := 3, hash := "hc", path := "/",
              root := "r1", payload := 0 },
    changeset := [] }

/-- The store after the C1 submit: only the HEAD ref changed. -/
def kvC1res : Store := { kvC1 with refs := [("head", "hc")] }

/-- C1: `submitCommit` returns successfully but does not promote the staged
entries: the entry staged under `stage/objects` (and its `stage/tree`
mapping) is still there afterwards, the stage namespaces are not empty, and
nothing was copied to `objects` or `tree` — the copy-and-clear loop is
commented out in the source. -/
theorem submitCommit_leaves_stage_in_place :
    submitCommit kvC1 cmC1 = Except.ok (kvC1res, cmC1) ∧
    kvC1res.stageObjects = [("h1", stagedCoreC1)] ∧
    kvC1res.stageTree = [("/x.txt", "h1")] ∧
    lookupAssoc kvC1res.objects "h1" = none ∧
    lookupAssoc kvC1res.tree "/x.txt" = none := by
  decide

theorem toLowerStr_HEAD : toLowerStr "HEAD" = "head" := by decide

/-- C9: for every successful `submitCommit`, the only KV mutation is the
`HEAD` entry of the refs bucket: `objects`, `tree`, `checkpoints`, the three
stage namespaces and the stats bucket hold exactly the entries they held
before, and `refs` is the old refs bucket with `head` set to the hash of
the commit. -/
theorem submitCommit_frame (kv : Store) (cm : GoCommit) (r : Store × GoCommit)
    (h : submitCommit kv cm = Except.ok r) :
    r.1.objects = kv.objects ∧ r.1.tree = kv.tree ∧
    r.1.checkpoints = kv.checkpoints ∧
    r.1.stageObjects = kv.stageObjects ∧ r.1.stageTree = kv.stageTree ∧
    r.1.stageCheckpoints = kv.stageCheckpoints ∧
    r.1.stats = kv.stats ∧
    r.1.refs = putAssoc kv.refs "head" cm.core.hash := by
  unfold submitCommit at h
  split at h
  · exact absurd h (by simp)
  · split at h
    · exact absurd h (by simp)
    · injection h with h'
      subst h'
      refine ⟨rfl, rfl, rfl, rfl, rfl, rfl, rfl, ?_⟩
      show putAssoc kv.refs (toLowerStr "HEAD") cm.core.hash
          = putAssoc kv.refs "head" cm.core.hash
      rw [toLowerStr_HEAD]

/-- The HEAD commit of the C9 witness scenario. -/
def headCoreC9 : NodeCore :=
  { ty := NodeType.commit, id := 1, hash := "h9", path := "/", root := "r0",
    payload := 0 }

/-- The C9 witness store: a resolvable HEAD commit, nothing staged. -/
def kvC9 : Store :=
  { emptyStore with
      objects := [("h9", headCoreC9)], refs := [("head", "h9")] }

/-- The commit submitted in the C9 witness scenario. -/
def cmC9 : GoCommit :=
  { core := { ty := NodeType.commit, id := 2, hash := "hc9", path := "/",
              root := "r1", payload := 0 },
    changeset := [] }

/-- The result of the C9 witness submit. -/
def resC9 : Store × GoCommit := ({ kvC9 with refs := [("head", "hc9")] }, cmC9)

theorem submitCommit_frame_witness :
    resC9.1.objects = kvC9.objects ∧ resC9.1.tree = kvC9.tree ∧
    resC9.1.checkpoints = kvC9.checkpoints ∧
    resC9.1.stageObjects = kvC9.stageObjects ∧
    resC9.1.stageTree = kvC9.stageTree ∧
    resC9.1.stageCheckpoints = kvC9.stageCheckpoints ∧
    resC9.1.stats = kvC9.stats ∧
    resC9.1.refs = putAssoc kvC9.refs "head" cmC9.core.hash :=
  submitCommit_frame kvC9 cmC9 resC9 (by decide)

/-! StageNode stages the whole parent chain (C2). -/

theorem stageNode_lookup_cases (nd : SNode) :
    ∀ kv kv' : Store, stageNode kv nd = Except.ok kv' → ∀ k : String,
      lookupAssoc kv'.stageObjects k = lookupAssoc kv.stageObjects k ∨
      ∃ b ∈ chain nd, b.core.hash = k ∧
        lookupAssoc kv'.stageObjects k = some b.core := by
  induction nd with
  | base c =>
      intro kv kv' h k
      unfold stageNode at h
      by_cases hc : c.ty = NodeType.commit
      · rw [if_pos hc] at h; exact absurd h (by simp)
      · rw [if_neg hc] at h
        injection h with h'
        subst h'
        rw [show (stagePut kv c).stageObjects
              = putAssoc kv.stageObjects c.hash c from rfl]
        rw [lookupAssoc_putAssoc]
        by_cases hk : c.hash = k
        · exact Or.inr ⟨SNode.base c, by simp [chain], hk,
            by rw [if_pos hk]; rfl⟩
        · left; rw [if_neg hk]
  | step c p ih =>
      intro kv kv' h k
      unfold stageNode at h
      by_cases hc : c.ty = NodeType.commit
      · rw [if_pos hc] at h; exact absurd h (by simp)
      · rw [if_neg hc] at h
        rcases ih (stagePut kv c) kv' h k with h1 | ⟨b, hb, hbk, hl⟩
        · rw [h1,
            show (stagePut kv c).stageObjects
              = putAssoc kv.stageObjects c.hash c from rfl,
            lookupAssoc_putAssoc]
          by_cases hk : c.hash = k
          · right
            exact ⟨SNode.step c p, List.mem_cons_self _ _, hk,
              by rw [if_pos hk]; rfl⟩
          · left; rw [if_neg hk]
        · exact Or.inr ⟨b, List.mem_cons_of_mem _ hb, hbk, hl⟩

theorem stageNode_chain_stored_aux (nd : SNode) :
    ∀ kv kv' : Store, stageNode kv nd = Except.ok kv' → ∀ a ∈ chain nd,
      ∃ b ∈ chain nd, b.core.hash = a.core.hash ∧
        lookupAssoc kv'.stageObjects a.core.hash = some b.core := by
  induction nd with
  | base c =>
      intro kv kv' h a ha
      simp only [chain, List.mem_singleton] at ha
      subst ha
      unfold stageNode at h
      by_cases hc : c.ty = NodeType.commit
      · rw [if_pos hc] at h; exact absurd h (by simp)
      · rw [if_neg hc] at h
        injection h with h'
        subst h'
        refine ⟨SNode.base c, by simp [chain], rfl, ?_⟩
        rw [show (stagePut kv c).stageObjects
              = putAssoc kv.stageObjects c.hash c from rfl,
          lookupAssoc_putAssoc]
        simp [SNode.core]
  | step c p ih =>
      intro kv kv' h a ha
      unfold stageNode at h
      by_cases hc : c.ty = NodeType.commit
      · rw [if_pos hc] at h; exact absurd h (by simp)
      · rw [if_neg hc] at h
        rcases List.mem_cons.mp ha with rfl | hap
        · rcases stageNode_lookup_cases p (stagePut kv c) kv' h
              (SNode.step c p).core.hash with h1 | ⟨b, hb, hbk, hl⟩
          · refine ⟨SNode.step c p, List.mem_cons_self _ _, rfl, ?_⟩
            rw [h1,
              show (stagePut kv c).stageObjects
                = putAssoc kv.stageObjects c.hash c from rfl,
              lookupAssoc_putAssoc]
            simp [SNode.core]
          · exact ⟨b, List.mem_cons_of_mem _ hb, hbk, hl⟩
        · rcases ih (stagePut kv c) kv' h a hap with ⟨b, hb, hbk, hl⟩
          exact ⟨b, List.mem_cons_of_mem _ hb, hbk, hl⟩

/-- C2: after a successful `stageNode`, the node and every node on the chain
from its parent up to the root are present in `stage/objects`, each stored
under its (recomputed) hash with its serialized form — assuming the hash is
collision-free along the chain (equal hash keys only for equal wire forms). -/
theorem stageNode_stages_whole_chain (kv kv' : Store) (nd : SNode)
    (hsucc : stageNode kv nd = Except.ok kv')
    (hinj : ∀ a ∈ chain nd, ∀ b ∈ chain nd,
        b.core.hash = a.core.hash → b.core = a.core) :
    ∀ a ∈ chain nd,
      lookupAssoc kv'.stageObjects a.core.hash = some a.core := by
  intro a ha
  rcases stageNode_chain_stored_aux nd kv kv' hsucc a ha with ⟨b, hb, hbk, hl⟩
  rw [hl, hinj a ha b hb hbk]

/-- The staged file of the C2 witness: `/a/f.txt`. -/
def coreF : NodeCore :=
  { ty := NodeType.file, id := 3, hash := "hf", path := "/a/f.txt", root := "",
    payload := 0 }

/-- The re-staged parent directory `/a` of the C2 witness. -/
def coreD1 : NodeCore :=
  { ty := NodeType.directory, id := 2, hash := "hd1", path := "/a", root := "",
    payload := 0 }

/-- The re-staged root directory `/` of the C2 witness. -/
def coreD0 : NodeCore :=
  { ty := NodeType.directory, id := 1, hash := "hd0", path := "/", root := "",
    payload := 0 }

/-- The C2 witness node with its parent chain. -/
def ndC2 : SNode := SNode.step coreF (SNode.step coreD1 (SNode.base coreD0))

/-- The store produced by staging the C2 witness chain into an empty store. -/
def kvC2res : Store := stagePut (stagePut (stagePut emptyStore coreF) coreD1) coreD0

theorem stageNode_stages_whole_chain_witness :
    lookupAssoc kvC2res.stageObjects "hf" = some coreF ∧
    lookupAssoc kvC2res.stageObjects "hd1" = some coreD1 ∧
    lookupAssoc kvC2res.stageObjects "hd0" = some coreD0 :=
  ⟨stageNode_stages_whole_chain emptyStore kvC2res ndC2 (by decide) (by decide)
      ndC2 (by simp [chain, ndC2]),
   stageNode_stages_whole_chain emptyStore kvC2res ndC2 (by decide) (by decide)
      (SNode.step coreD1 (SNode.base coreD0)) (by simp [chain, ndC2]),
   stageNode_stages_whole_chain emptyStore kvC2res ndC2 (by decide) (by decide)
      (SNode.base coreD0) (by simp [chain, ndC2])⟩

/-! The compression writer: empty-input Close (C8) and
ReadFrom-versus-Write equivalence (C7). -/

/-- C8: creating a writer and calling `Close` without any prior `Write` emits
exactly the header, an index of one sentinel record (at raw offset 0 and zip
offset `headerSize`), and the trailer, in that order; the output does not
depend on the compression algorithm — no compressed chunk bytes are
written. -/
theorem close_empty_input_emits_header_sentinel_trailer
    (enc : List Nat → List Nat) (a : Nat) :
    (closeW enc (newWriter a)).out =
      makeHeader a ++ marshalRecord { rawOff := 0, zipOff := headerSize } ++
        marshalTrailer { algoType := 0, chunkSize := 0,
                         indexSize := indexChunkSize } ∧
    (closeW enc (newWriter a)).index = [{ rawOff := 0, zipOff := headerSize }] := by
  constructor <;> rfl

theorem flushBuffer_nil (enc : List Nat → List Nat) (w : CWriter) :
    flushBuffer enc w [] = w := rfl

theorem flushBuffer_headerWritten (enc : List Nat → List Nat) (w : CWriter)
    (d : List Nat) : (flushBuffer enc w d).headerWritten = w.headerWritten := by
  unfold flushBuffer addRecordToIndex
  split <;> rfl

theorem flushBuffer_set_chunkBuf (enc : List Nat → List Nat) (w : CWriter)
    (x d : List Nat) :
    flushBuffer enc { w with chunkBuf := x } d =
      { flushBuffer enc w d with chunkBuf := x } := by
  unfold flushBuffer addRecordToIndex
  by_cases h : d.length ≤ 0 <;> simp [h]

theorem writeHeaderIfNeeded_id (w : CWriter) (hh : w.headerWritten = true) :
    writeHeaderIfNeeded w = w := by
  unfold writeHeaderIfNeeded
  rw [hh]
  rfl

theorem writeLoop_small (enc : List Nat → List Nat) (w : CWriter)
    (p : List Nat) (hb : w.chunkBuf = []) (hp : p.length < maxChunkSize) :
    writeLoop enc w p = { w with chunkBuf := p } := by
  rw [writeLoop]
  simp only [hb, List.nil_append, Nat.min_eq_left (Nat.le_of_lt hp),
    List.take_length]
  rw [dif_pos]
  exact hp

theorem writeLoop_flush (enc : List Nat → List Nat) (w : CWriter)
    (p : List Nat) (hb : w.chunkBuf = []) (hp : maxChunkSize ≤ p.length) :
    writeLoop enc w p =
      writeLoop enc (flushBuffer enc w (p.take maxChunkSize))
        (p.drop maxChunkSize) := by
  rw [writeLoop]
  simp only [hb, List.nil_append, Nat.min_eq_right hp]
  have hlen : (p.take maxChunkSize).length = maxChunkSize := by
    rw [List.length_take]
    exact Nat.min_eq_left hp
  rw [dif_neg (by rw [hlen]; exact Nat.lt_irrefl _)]
  have hdrop : (p.take maxChunkSize).drop maxChunkSize = [] := by
    apply List.drop_eq_nil_of_le
    rw [hlen]
  have htake : (p.take maxChunkSize).take maxChunkSize = p.take maxChunkSize := by
    rw [List.take_take, Nat.min_self]
  rw [hdrop, htake, ← hb]

theorem chunksOf_nil : chunksOf [] = [] := by
  rw [chunksOf]
  rfl

theorem chunksOf_cons (bs : List Nat) (h : bs ≠ []) :
    chunksOf bs = bs.take maxChunkSize :: chunksOf (bs.drop maxChunkSize) := by
  rw [chunksOf]
  simp [h]

theorem closeW_of_headerWritten (enc : List Nat → List Nat) (w : CWriter)
    (hh : w.headerWritten = true) :
    closeW enc w = closeTail (flushBuffer enc w w.chunkBuf) := by
  unfold closeW
  rw [writeHeaderIfNeeded_id w hh]

theorem closeTail_out_set_chunkBuf (w : CWriter) (x : List Nat) :
    (closeTail { w with chunkBuf := x }).out = (closeTail w).out := rfl

/-- Close produces the same output whether a short final chunk is still
sitting in the chunk buffer (the `Write` path) or has already been flushed
directly (the `ReadFrom` path): the only difference between the two states
after Close is the leftover `chunkBuf` field, which Close never emits. -/
theorem closeOut_flush_vs_buffer (enc : List Nat → List Nat) (w : CWriter)
    (bs : List Nat) (hb : w.chunkBuf = []) (hh : w.headerWritten = true) :
    (closeW enc (flushBuffer enc w bs)).out =
      (closeW enc { w with chunkBuf := bs }).out := by
  have hXb : (flushBuffer enc w bs).chunkBuf = [] := by
    rw [flushBuffer_chunkBuf]; exact hb
  have hXh : (flushBuffer enc w bs).headerWritten = true := by
    rw [flushBuffer_headerWritten]; exact hh
  have e1 : closeW enc (flushBuffer enc w bs) = closeTail (flushBuffer enc w bs) := by
    rw [closeW_of_headerWritten enc (flushBuffer enc w bs) hXh, hXb, flushBuffer_nil]
  have e2 : closeW enc { w with chunkBuf := bs }
      = closeTail { flushBuffer enc w bs with chunkBuf := bs } := by
    rw [closeW_of_headerWritten enc { w with chunkBuf := bs } hh]
    rw [show ({ w with chunkBuf := bs } : CWriter).chunkBuf = bs from rfl]
    rw [flushBuffer_set_chunkBuf]
  rw [e1, e2]
  exact (closeTail_out_set_chunkBuf (flushBuffer enc w bs) bs).symm

theorem closeOut_agree (enc : List Nat → List Nat) :
    ∀ (n : Nat) (bs : List Nat) (w : CWriter), bs.length ≤ n →
      w.chunkBuf = [] → w.headerWritten = true →
      (closeW enc (readLoop enc w (chunksOf bs))).out =
        (closeW enc (writeLoop enc w bs)).out := by
  intro n
  induction n with
  | zero =>
      intro bs w hn hb hh
      have hbs : bs = [] := List.eq_nil_of_length_eq_zero (Nat.le_zero.mp hn)
      subst hbs
      rw [chunksOf_nil, writeLoop_small enc w [] hb (by decide), ← hb]
      rfl
  | succ n ih =>
      intro bs w hn hb hh
      by_cases hbig : maxChunkSize ≤ bs.length
      · have hne : bs ≠ [] := by
          intro hx
          rw [hx] at hbig
          exact absurd hbig (by decide)
        rw [chunksOf_cons bs hne, writeLoop_flush enc w bs hb hbig]
        show (closeW enc (readLoop enc (flushBuffer enc w (bs.take maxChunkSize))
            (chunksOf (bs.drop maxChunkSize)))).out = _
        apply ih
        · rw [List.length_drop]
          have : 0 < maxChunkSize := by decide
          omega
        · rw [flushBuffer_chunkBuf]; exact hb
        · rw [flushBuffer_headerWritten]; exact hh
      · by_cases hnil : bs = []
        · subst hnil
          rw [chunksOf_nil, writeLoop_small enc w [] hb (by decide), ← hb]
          rfl
        · rw [chunksOf_cons bs hnil, Nat.not_le] at *
          rw [List.take_of_length_le (Nat.le_of_lt hbig),
            List.drop_eq_nil_of_le (Nat.le_of_lt hbig), chunksOf_nil,
            writeLoop_small enc w bs hb hbig]
          show (closeW enc (flushBuffer enc (flushBuffer enc w bs) [])).out = _
          rw [flushBuffer_nil]
          exact closeOut_flush_vs_buffer enc w bs hb hh

/-- C7 (amended): feeding a byte sequence through `ReadFrom` and `Close`
produces byte-for-byte the same output as feeding it through `Write` and
`Close` when the reader delivers the bytes in maximal `maxChunkSize`-sized
reads (final read possibly short); see the counterexample for other read
sizes. -/
theorem readFrom_write_agree_on_maximal_reads (enc : List Nat → List Nat)
    (a : Nat) (bs : List Nat) :
    (closeW enc (readFromReads enc (newWriter a) (chunksOf bs))).out =
      (closeW enc (writeBytes enc (newWriter a) bs)).out := by
  unfold readFromReads writeBytes
  exact closeOut_agree enc bs.length bs (writeHeaderIfNeeded (newWriter a))
    Nat.le.refl rfl rfl

/-- C7 (counterexample): with the identity compression algorithm, delivering
the two bytes `[1, 2]` through `ReadFrom` as two one-byte reads produces a
different output stream than writing `[1, 2]` through `Write` — `ReadFrom`
flushes every read as its own chunk, so the chunk boundaries and the index
depend on the read sizes. -/
theorem readFrom_differs_from_write_on_short_reads :
    (closeW (fun bs => bs)
        (readFromReads (fun bs => bs) (newWriter 0) [[1], [2]])).out ≠
      (closeW (fun bs => bs)
        (writeBytes (fun bs => bs) (newWriter 0) [1, 2])).out := by
  rw [writeBytes,
    writeLoop_small (fun bs => bs) (writeHeaderIfNeeded (newWriter 0)) [1, 2]
      rfl (by decide)]
  decide

end Brig
